import Mathlib

/-!
Verification of the file-dispatch / tree-dump helper of the
tree-sitter-starter repository.

The repository's original logic lives in two small scripts:

* `scripts/parse.js` — a Node CLI that maps a file extension to a grammar
  package (`LANGUAGE_LOADERS`), lazily loads it, parses the file with the
  external tree-sitter capability, and prints either the tree's textual
  S-expression (`tree.rootNode.toString()`) or a breadth-first JSON summary
  capped at 2000 node summaries.
* `scripts/parse-cloned.sh` — a shell helper whose `case "$EXT"` block maps
  extensions (taken without the leading dot) to grammar repositories.

This file shallowly embeds both scripts: the external parsing toolkit
(grammar handles, parse trees, `require`) is modelled as an abstract world
passed to the CLI function, while every piece of control flow of the scripts
themselves (argument handling, the registry, exit codes, diagnostic strings,
the capped BFS) is translated directly from the source.
-/

/-- Row/column position as exposed by tree-sitter nodes
(`node.startPosition` / `node.endPosition`). -/
structure Position where
  row : Nat
  column : Nat
deriving DecidableEq, Repr

/-- A syntax-tree node of the external parsing capability, carrying exactly
the data `scripts/parse.js` reads from it: `node.type`, `node.isNamed()`,
`node.startPosition`, `node.endPosition` and the list of children
(`node.child(i)` for `i < node.childCount`).  Tree-sitter represents a
syntax error in the input as an ordinary node whose type is `"ERROR"`. -/
inductive Node : Type where
  | mk (type : String) (named : Bool) (startPosition : Position) (endPosition : Position)
       (children : List Node) : Node

/-- The node's `type` string. -/
def Node.type : Node → String
  | .mk t _ _ _ _ => t

/-- The node's `isNamed()` flag. -/
def Node.named : Node → Bool
  | .mk _ nm _ _ _ => nm

/-- The node's `startPosition`. -/
def Node.startPosition : Node → Position
  | .mk _ _ sp _ _ => sp

/-- The node's `endPosition`. -/
def Node.endPosition : Node → Position
  | .mk _ _ _ ep _ => ep

/-- The node's children, `node.child(0) … node.child(childCount - 1)`. -/
def Node.children : Node → List Node
  | .mk _ _ _ _ cs => cs

mutual
/-- Number of nodes of the tree rooted at a node (the node itself plus all
descendants). -/
def Node.size : Node → Nat
  | .mk _ _ _ _ cs => 1 + sizeL cs
/-- Total number of nodes of a forest. -/
def sizeL : List Node → Nat
  | [] => 0
  | c :: cs => Node.size c + sizeL cs
end

mutual
/-- All nodes of the tree rooted at a node, in depth-first preorder.  Used
only as the specification-side notion of "the nodes of the tree". -/
def Node.allNodes : Node → List Node
  | .mk t nm sp ep cs => Node.mk t nm sp ep cs :: allNodesL cs
/-- All nodes of a forest, in depth-first preorder. -/
def allNodesL : List Node → List Node
  | [] => []
  | c :: cs => c.allNodes ++ allNodesL cs
end

/-- Summary record emitted for one node in JSON mode
(`scripts/parse.js`, function `nodeSummary`). -/
structure NodeSummary where
  type : String
  named : Bool
  startPosition : Position
  endPosition : Position
  childCount : Nat
deriving DecidableEq, Repr

/-- Translation of `nodeSummary(node)` from `scripts/parse.js`:
`{ type, named: node.isNamed(), startPosition, endPosition, childCount }`. -/
def nodeSummary (n : Node) : NodeSummary :=
  { type := n.type
    named := n.named
    startPosition := n.startPosition
    endPosition := n.endPosition
    childCount := n.children.length }

/-- Translation of the BFS loop of `scripts/parse.js`:

`while (queue.length && out.length < 2000) { const n = queue.shift();
out.push(nodeSummary(n)); for (let i = 0; i < n.childCount; i++)
queue.push(n.child(i)); }`

The first argument is `queue`, the second is `out`. -/
def bfsLoop : List Node → List NodeSummary → List NodeSummary
  | [], out => out
  | n :: rest, out =>
    if out.length < 2000 then
      bfsLoop (rest ++ n.children) (out ++ [nodeSummary n])
    else out
termination_by q _ => sizeL q
decreasing_by
  have happ : ∀ (a b : List Node), sizeL (a ++ b) = sizeL a + sizeL b := by
    intro a b
    induction a with
    | nil => simp [sizeL]
    | cons x xs ih => simp [sizeL, ih]; omega
  have hnode : ∀ (m : Node) (ms : List Node), sizeL (ms ++ m.children) < sizeL (m :: ms) := by
    intro m ms
    cases m with
    | mk t nm sp ep cs => simp [happ, sizeL, Node.children, Node.size]; omega
  exact hnode _ _

/-- The object printed by JSON mode of `scripts/parse.js`:
`{ file: targetPath, root: nodeSummary(root), nodes: out }` where `out` is the
result of the capped BFS loop started on `queue = [root]`, `out = []`. -/
structure JsonDump where
  file : String
  root : NodeSummary
  nodes : List NodeSummary
deriving DecidableEq, Repr

/-- JSON-mode output of `scripts/parse.js` for source file path `f` and
parse tree root `t`. -/
def jsonDump (f : String) (t : Node) : JsonDump :=
  { file := f, root := nodeSummary t, nodes := bfsLoop [t] [] }

/-- Uncapped queue-based breadth-first enumeration of a forest; the BFS loop
of `scripts/parse.js` emits summaries of exactly a prefix of this list. -/
def bfsOrder : List Node → List Node
  | [] => []
  | n :: rest => n :: bfsOrder (rest ++ n.children)
termination_by q => sizeL q
decreasing_by
  have happ : ∀ (a b : List Node), sizeL (a ++ b) = sizeL a + sizeL b := by
    intro a b
    induction a with
    | nil => simp [sizeL]
    | cons x xs ih => simp [sizeL, ih]; omega
  have hnode : ∀ (m : Node) (ms : List Node), sizeL (ms ++ m.children) < sizeL (m :: ms) := by
    intro m ms
    cases m with
    | mk t nm sp ep cs => simp [happ, sizeL, Node.children, Node.size]; omega
  exact hnode _ _

/-- Modelled from the spec: breadth-first order stated independently of the
implementation, as the concatenation of the tree's levels — first the roots
of the forest, then all their children, then all grandchildren, and so on.
This is the specification-side meaning of "breadth-first order, root first"
against which the queue loop of `scripts/parse.js` is compared. -/
def bfsLevels : List Node → List Node
  | [] => []
  | n :: rest => (n :: rest) ++ bfsLevels ((n :: rest).flatMap Node.children)
termination_by q => sizeL q
decreasing_by
  have happ : ∀ (a b : List Node), sizeL (a ++ b) = sizeL a + sizeL b := by
    intro a b
    induction a with
    | nil => simp [sizeL]
    | cons x xs ih => simp [sizeL, ih]; omega
  have hsz : ∀ (m : Node), Node.size m = 1 + sizeL m.children := by
    intro m
    cases m with
    | mk t nm sp ep cs => simp [Node.size, Node.children]
  have hle : ∀ (l : List Node), sizeL (l.flatMap Node.children) ≤ sizeL l := by
    intro l
    induction l with
    | nil => simp [sizeL]
    | cons m ms ih =>
      have := hsz m
      simp [List.flatMap_cons, happ, sizeL]
      omega
  have hstep : ∀ (m : Node) (ms : List Node),
      sizeL ((m :: ms).flatMap Node.children) < sizeL (m :: ms) := by
    intro m ms
    have h1 := hle ms
    have h2 := hsz m
    simp [List.flatMap_cons, happ, sizeL]
    omega
  exact hstep _ _

mutual
/-- Models the external capability's `tree.rootNode.toString()`: the
canonical parenthesized S-expression of the tree, printed verbatim by the
text mode of `scripts/parse.js`.  The script never inspects this string, so
only its functional dependence on the tree matters here. -/
def Node.sexp : Node → String
  | .mk t _ _ _ cs => "(" ++ t ++ sexpL cs ++ ")"
/-- S-expression rendering of a forest, each tree preceded by a space. -/
def sexpL : List Node → String
  | [] => ""
  | c :: cs => " " ++ c.sexp ++ sexpL cs
end

/-- Whether the tree contains an error node, i.e. a node whose type is
`"ERROR"` — tree-sitter's representation of syntactically invalid input
inside an otherwise valid tree. -/
def Node.containsErrorNode (t : Node) : Bool :=
  t.allNodes.any fun n => n.type == "ERROR"

/-- Basename of a path: the part after the last `/`. -/
def basenameChars (l : List Char) : List Char :=
  (l.reverse.takeWhile (fun c => c ≠ '/')).reverse

/-- Extension of a path on character lists, following Node.js
`path.extname`: everything from the last `.` of the basename to the end;
empty when the basename has no dot, when its only dot is the leading
character (dotfiles like `.bashrc`), or for the special name `..`. -/
def extnameChars (l : List Char) : List Char :=
  let b := basenameChars l
  if b = ['.', '.'] then []
  else
    let after := (b.reverse.takeWhile (fun c => c ≠ '.')).reverse
    if after.length = b.length then []
    else if b.length = after.length + 1 then []
    else '.' :: after

/-- Translation of Node.js `path.extname` to strings. -/
def extname (s : String) : String :=
  String.mk (extnameChars s.toList)

/-- Translation of JavaScript `String.prototype.toLowerCase` (the inputs
here are ASCII file extensions). -/
def toLowerCase (s : String) : String :=
  String.mk (s.toList.map Char.toLower)

/-- Translation of the `LANGUAGE_LOADERS` table of `scripts/parse.js`,
mapping an extension key to the grammar package identifier that the lazy
loader would `require`:

`{ '.js': tree-sitter-javascript, '.jsx': tree-sitter-javascript,
'.ts': tree-sitter-javascript, '.tsx': tree-sitter-javascript,
'.json': tree-sitter-json, '.py': tree-sitter-python }`. -/
def LANGUAGE_LOADERS (ext : String) : Option String :=
  if ext = ".js" then some "tree-sitter-javascript"
  else if ext = ".jsx" then some "tree-sitter-javascript"
  else if ext = ".ts" then some "tree-sitter-javascript"
  else if ext = ".tsx" then some "tree-sitter-javascript"
  else if ext = ".json" then some "tree-sitter-json"
  else if ext = ".py" then some "tree-sitter-python"
  else none

/-- The registry's content listed as a fixed table of pairs, used to state
that `LANGUAGE_LOADERS` is exactly a lookup in a fixed table. -/
def registryTable : List (String × String) :=
  [(".js", "tree-sitter-javascript"),
   (".jsx", "tree-sitter-javascript"),
   (".ts", "tree-sitter-javascript"),
   (".tsx", "tree-sitter-javascript"),
   (".json", "tree-sitter-json"),
   (".py", "tree-sitter-python")]

/-- The loader selection of `scripts/parse.js` lines 47–48:
`const ext = path.extname(targetPath).toLowerCase();
const loader = LANGUAGE_LOADERS[ext];`. -/
def selectLoader (p : String) : Option String :=
  LANGUAGE_LOADERS (toLowerCase (extname p))

/-- Observable side effect of interest during a run of `scripts/parse.js`. -/
inductive Event where
  | loaderInvoked (pkg : String)
deriving DecidableEq, Repr

/-- The external world consumed by `scripts/parse.js`: the filesystem and
the parsing toolkit.  `G` is the opaque type of loaded grammar handles;
`loadPackage` is the outcome of `require`-ing a grammar package, and
`parse` is the external `parser.parse` after `parser.setLanguage`. -/
structure World (G : Type) where
  fileExists : String → Bool
  readFile : String → String
  loadPackage : String → Except String G
  parse : G → String → Node

/-- Outcome of a run of `scripts/parse.js`: the process exit status, what
was printed to stdout (the text S-expression or the JSON object), the lines
printed to stderr, and the loader-invocation events that occurred. -/
structure RunResult where
  exitCode : Nat
  stdoutText : Option String
  stdoutJson : Option JsonDump
  stderr : List String
  events : List Event
deriving DecidableEq, Repr

/-- The two fixed lines printed by the `usage` helper of `scripts/parse.js`. -/
def usageLines : List String :=
  ["Usage: node scripts/parse.js <file> [--json]",
   "  --json   Output a structured JSON form (root node + child summaries)"]

/-- Translation of `usage(msg)` from `scripts/parse.js`: optionally print
`Error: msg`, print the usage lines, exit with status 1. -/
def usageResult (msg : Option String) : RunResult :=
  { exitCode := 1
    stdoutText := none
    stdoutJson := none
    stderr := (match msg with | some m => ["Error: " ++ m] | none => []) ++ usageLines
    events := [] }

/-- Translation of the top-level control flow of `scripts/parse.js` for
argument vector `argv` (the `process.argv.slice(2)` of the script):
flag and file-argument separation, the file-existence check, the
extension dispatch, the guarded lazy load, the parse, and one of the two
rendering modes. -/
def runParse {G : Type} (w : World G) (argv : List String) : RunResult :=
  if argv = [] then usageResult none
  else
    let jsonMode := argv.contains "--json"
    let fileArgs := argv.filter fun a => a ≠ "--json"
    match fileArgs with
    | [targetPath] =>
      if w.fileExists targetPath = false then
        usageResult (some ("File not found: " ++ targetPath))
      else
        let ext := toLowerCase (extname targetPath)
        match LANGUAGE_LOADERS ext with
        | none =>
          { exitCode := 2
            stdoutText := none
            stdoutJson := none
            stderr := ["No language configured for extension: " ++ ext,
                       "Edit scripts/parse.js to add one."]
            events := [] }
        | some pkg =>
          match w.loadPackage pkg with
          | .error e =>
            { exitCode := 2
              stdoutText := none
              stdoutJson := none
              stderr := ["Failed to load parser package for " ++ ext ++ ". Did you install it?", e]
              events := [Event.loaderInvoked pkg] }
          | .ok lang =>
            let code := w.readFile targetPath
            let tree := w.parse lang code
            if jsonMode then
              { exitCode := 0
                stdoutText := none
                stdoutJson := some (jsonDump targetPath tree)
                stderr := []
                events := [Event.loaderInvoked pkg] }
            else
              { exitCode := 0
                stdoutText := some tree.sexp
                stdoutJson := none
                stderr := []
                events := [Event.loaderInvoked pkg] }
    | _ => usageResult (some "Provide exactly one source file")

/-- Association-list lookup used by the `require` cache model. -/
def cacheLookup {G : Type} : List (String × G) → String → Option G
  | [], _ => none
  | (k, v) :: rest, key => if k = key then some v else cacheLookup rest key

/-- Models Node.js `require` as invoked by the lazy loaders of
`LANGUAGE_LOADERS`: modules are cached by module identifier, so a request
for an already-loaded identifier returns the cached handle without running
the underlying (expensive) module load again; a failed load is not cached.
Returns the outcome, the updated cache, and whether the expensive
underlying load step ran. -/
def requireMod {G : Type} (load : String → Except String G)
    (cache : List (String × G)) (key : String) :
    Except String G × List (String × G) × Bool :=
  match cacheLookup cache key with
  | some g => (Except.ok g, cache, false)
  | none =>
    match load key with
    | Except.ok g => (Except.ok g, (key, g) :: cache, true)
    | Except.error e => (Except.error e, cache, true)

/-- Translation of `EXT="${TARGET##*.}"` from `scripts/parse-cloned.sh`:
the characters after the last dot of the whole path, or the whole string
when it has no dot. -/
def shExt (s : String) : String :=
  String.mk ((s.toList.reverse.takeWhile fun c => c ≠ '.').reverse)

/-- Translation of the `case "$EXT"` block of `scripts/parse-cloned.sh`,
mapping a dotless extension to the grammar repository directory. -/
def parseClonedRepo (ext : String) : Option String :=
  if ext = "js" ∨ ext = "jsx" ∨ ext = "ts" ∨ ext = "tsx" then some "tree-sitter-javascript"
  else if ext = "py" then some "tree-sitter-python"
  else if ext = "json" then some "tree-sitter-json"
  else if ext = "rs" then some "tree-sitter-rust"
  else none

/-- Translation of the argument checks and extension dispatch of
`scripts/parse-cloned.sh` (plain invocation without `--update`/`--list`):
the error side carries the exit status and stderr lines of the failing
path, the ok side the selected repository directory. -/
def runParseClonedDispatch (fileExists : String → Bool) (target : String) :
    Except (Nat × List String) String :=
  if target = "" then Except.error (1, ["Error: no target file provided"])
  else if fileExists target = false then
    Except.error (1, ["Error: file not found: " ++ target])
  else
    match parseClonedRepo (shExt target) with
    | none =>
      Except.error (2, ["Unsupported extension: ." ++ shExt target,
                        "Edit scripts/parse-cloned.sh to add a repo mapping."])
    | some repoDir => Except.ok repoDir

/-- A concrete world used to exercise the CLI model on sample runs: every
file exists, every grammar package loads as the handle `0`, and parsing
yields a tree whose single child is an `ERROR` node — the shape tree-sitter
produces for syntactically invalid input such as `let x = ;`. -/
def errorWorld : World Nat :=
  { fileExists := fun _ => true
    readFile := fun _ => "let x = ;"
    loadPackage := fun _ => Except.ok 0
    parse := fun _ _ =>
      Node.mk "program" true ⟨0, 0⟩ ⟨0, 9⟩
        [Node.mk "ERROR" true ⟨0, 0⟩ ⟨0, 9⟩ []] }

/-- A concrete world whose filesystem lacks `missing.py` and whose grammar
packages fail to load with a fixed module-not-found message. -/
def failingWorld : World Nat :=
  { fileExists := fun s => !(s == "missing.py")
    readFile := fun _ => ""
    loadPackage := fun _ => Except.error "Cannot find module tree-sitter-python"
    parse := fun _ _ => Node.mk "module" true ⟨0, 0⟩ ⟨0, 0⟩ [] }

theorem sizeL_append (a b : List Node) : sizeL (a ++ b) = sizeL a + sizeL b := by
  induction a with
  | nil => simp [sizeL]
  | cons x xs ih => simp [sizeL, ih]; omega

theorem Node.size_eq (m : Node) : m.size = 1 + sizeL m.children := by
  cases m with
  | mk t nm sp ep cs => simp [Node.size, Node.children]

theorem Node.size_pos (m : Node) : 1 ≤ m.size := by
  cases m with
  | mk t nm sp ep cs => simp [Node.size]

theorem Node.allNodes_eq (n : Node) : n.allNodes = n :: allNodesL n.children := by
  cases n with
  | mk t nm sp ep cs => simp [Node.allNodes, Node.children]

theorem allNodesL_append (a b : List Node) :
    allNodesL (a ++ b) = allNodesL a ++ allNodesL b := by
  induction a with
  | nil => simp [allNodesL]
  | cons c cs ih => simp [allNodesL, ih]

theorem allNodesL_singleton (t : Node) : allNodesL [t] = t.allNodes := by
  simp [allNodesL]

theorem bfsOrder_nil : bfsOrder [] = [] := by
  rw [bfsOrder]

theorem bfsOrder_cons (n : Node) (rest : List Node) :
    bfsOrder (n :: rest) = n :: bfsOrder (rest ++ n.children) := by
  rw [bfsOrder]

theorem bfsLoop_nil (out : List NodeSummary) : bfsLoop [] out = out := by
  rw [bfsLoop]

theorem bfsLoop_cons (n : Node) (rest : List Node) (out : List NodeSummary) :
    bfsLoop (n :: rest) out =
      if out.length < 2000 then
        bfsLoop (rest ++ n.children) (out ++ [nodeSummary n])
      else out := by
  rw [bfsLoop]

theorem bfsLevels_nil : bfsLevels [] = [] := by
  rw [bfsLevels]

theorem bfsLevels_cons (n : Node) (rest : List Node) :
    bfsLevels (n :: rest) = (n :: rest) ++ bfsLevels ((n :: rest).flatMap Node.children) := by
  rw [bfsLevels]

theorem bfsOrder_length_aux :
    ∀ (k : Nat) (q : List Node), sizeL q ≤ k → (bfsOrder q).length = sizeL q := by
  intro k
  induction k with
  | zero =>
    intro q h
    cases q with
    | nil => simp [bfsOrder_nil, sizeL]
    | cons n rest =>
      exfalso
      have := Node.size_pos n
      simp [sizeL] at h
      omega
  | succ k ih =>
    intro q h
    cases q with
    | nil => simp [bfsOrder_nil, sizeL]
    | cons n rest =>
      have hsz := Node.size_eq n
      have hq : sizeL (rest ++ n.children) ≤ k := by
        rw [sizeL_append]
        simp [sizeL] at h
        omega
      rw [bfsOrder_cons]
      simp [ih _ hq, sizeL_append, sizeL]
      omega

theorem bfsOrder_length (q : List Node) : (bfsOrder q).length = sizeL q :=
  bfsOrder_length_aux (sizeL q) q le_rfl

theorem bfsLoop_eq_take_aux :
    ∀ (k : Nat) (q : List Node) (out : List NodeSummary), sizeL q ≤ k →
      bfsLoop q out = out ++ ((bfsOrder q).take (2000 - out.length)).map nodeSummary := by
  intro k
  induction k with
  | zero =>
    intro q out h
    cases q with
    | nil => simp [bfsLoop_nil, bfsOrder_nil]
    | cons n rest =>
      exfalso
      have := Node.size_pos n
      simp [sizeL] at h
      omega
  | succ k ih =>
    intro q out h
    cases q with
    | nil => simp [bfsLoop_nil, bfsOrder_nil]
    | cons n rest =>
      have hsz := Node.size_eq n
      have hq : sizeL (rest ++ n.children) ≤ k := by
        rw [sizeL_append]
        simp [sizeL] at h
        omega
      rw [bfsLoop_cons, bfsOrder_cons]
      by_cases hlt : out.length < 2000
      · rw [if_pos hlt, ih _ _ hq]
        have h2 : 2000 - out.length = (2000 - (out ++ [nodeSummary n]).length) + 1 := by
          simp [List.length_append]
          omega
        rw [h2, List.take_succ_cons, List.map_cons]
        simp [List.append_assoc]
      · rw [if_neg hlt]
        have h0 : 2000 - out.length = 0 := by omega
        simp [h0]

theorem bfsLoop_take (q : List Node) (out : List NodeSummary) :
    bfsLoop q out = out ++ ((bfsOrder q).take (2000 - out.length)).map nodeSummary :=
  bfsLoop_eq_take_aux (sizeL q) q out le_rfl

theorem jsonDump_nodes (f : String) (t : Node) :
    (jsonDump f t).nodes = ((bfsOrder [t]).take 2000).map nodeSummary := by
  simp [jsonDump, bfsLoop_take]

theorem bfsOrder_perm_aux :
    ∀ (k : Nat) (q : List Node), sizeL q ≤ k → (bfsOrder q).Perm (allNodesL q) := by
  intro k
  induction k with
  | zero =>
    intro q h
    cases q with
    | nil => simp [bfsOrder_nil, allNodesL]
    | cons n rest =>
      exfalso
      have := Node.size_pos n
      simp [sizeL] at h
      omega
  | succ k ih =>
    intro q h
    cases q with
    | nil => simp [bfsOrder_nil, allNodesL]
    | cons n rest =>
      have hsz := Node.size_eq n
      have hq : sizeL (rest ++ n.children) ≤ k := by
        rw [sizeL_append]
        simp [sizeL] at h
        omega
      rw [bfsOrder_cons]
      have h1 : (bfsOrder (rest ++ n.children)).Perm (allNodesL rest ++ allNodesL n.children) := by
        have h0 := ih _ hq
        rwa [allNodesL_append] at h0
      have h2 : allNodesL (n :: rest) = n :: (allNodesL n.children ++ allNodesL rest) := by
        simp [allNodesL, Node.allNodes_eq]
      rw [h2]
      exact (h1.cons n).trans (List.perm_append_comm.cons n)

theorem bfsOrder_perm (q : List Node) : (bfsOrder q).Perm (allNodesL q) :=
  bfsOrder_perm_aux (sizeL q) q le_rfl

theorem bfsOrder_levels_aux :
    ∀ (k : Nat) (a b : List Node),
      sizeL a + sizeL (b.flatMap Node.children) ≤ k →
      bfsOrder (a ++ b.flatMap Node.children) =
        a ++ bfsLevels ((b ++ a).flatMap Node.children) := by
  intro k
  induction k with
  | zero =>
    intro a b h
    cases a with
    | cons n a' =>
      exfalso
      have := Node.size_pos n
      simp [sizeL] at h
      omega
    | nil =>
      simp only [List.nil_append, List.append_nil]
      cases hc : b.flatMap Node.children with
      | nil => simp [bfsOrder_nil, bfsLevels_nil]
      | cons m c' =>
        exfalso
        have hco : sizeL (b.flatMap Node.children) = sizeL (m :: c') := by rw [hc]
        have := Node.size_pos m
        simp [sizeL, hco] at h
        omega
  | succ k ih =>
    intro a b h
    cases a with
    | cons n a' =>
      rw [List.cons_append, bfsOrder_cons]
      have hfc : (a' ++ b.flatMap Node.children) ++ n.children =
          a' ++ (b ++ [n]).flatMap Node.children := by
        simp [List.flatMap_append, List.append_assoc]
      rw [hfc]
      have hm : sizeL a' + sizeL ((b ++ [n]).flatMap Node.children) ≤ k := by
        have hsz := Node.size_eq n
        simp only [List.flatMap_append, sizeL_append, List.flatMap_cons, List.flatMap_nil,
          List.append_nil] at *
        simp [sizeL] at h
        omega
      rw [ih a' (b ++ [n]) hm]
      simp [List.append_assoc]
    | nil =>
      simp only [List.nil_append, List.append_nil]
      cases hc : b.flatMap Node.children with
      | nil => simp [bfsOrder_nil, bfsLevels_nil]
      | cons m c' =>
        rw [bfsOrder_cons, bfsLevels_cons]
        have hfc2 : c' ++ m.children = c' ++ ([m] : List Node).flatMap Node.children := by
          simp [List.flatMap_cons]
        rw [hfc2]
        have hm2 : sizeL c' + sizeL (([m] : List Node).flatMap Node.children) ≤ k := by
          have hsz := Node.size_eq m
          have hco : sizeL (b.flatMap Node.children) = sizeL (m :: c') := by rw [hc]
          simp only [List.flatMap_cons, List.flatMap_nil, List.append_nil] at *
          simp [sizeL] at hco
          omega
        rw [ih c' [m] hm2]
        simp

theorem bfsOrder_eq_bfsLevels (q : List Node) : bfsOrder q = bfsLevels q := by
  cases q with
  | nil => simp [bfsOrder_nil, bfsLevels_nil]
  | cons n rest =>
    have h := bfsOrder_levels_aux (sizeL (n :: rest)) (n :: rest) [] (by simp [sizeL])
    simp only [List.flatMap_nil, List.append_nil, List.nil_append] at h
    rw [h, bfsLevels_cons]

/-- C1: In JSON mode, for every input tree, the node-summary sequence of the
dump has at most 2000 entries even if the tree has more nodes; and for every
tree with at most 2000 nodes it contains exactly one entry per node of the
tree (it is a permutation of the summaries of all the tree's nodes). -/
theorem jsonDump_cap_and_per_node (f : String) (t : Node) :
    (jsonDump f t).nodes.length ≤ 2000 ∧
    (t.size ≤ 2000 → ((jsonDump f t).nodes).Perm (t.allNodes.map nodeSummary)) := by
  constructor
  · rw [jsonDump_nodes]
    simp [(bfsOrder [t]).length_take_le 2000]
  · intro hle
    rw [jsonDump_nodes]
    have hlen : (bfsOrder [t]).length ≤ 2000 := by
      rw [bfsOrder_length]
      simpa [sizeL] using hle
    rw [List.take_of_length_le hlen]
    have hp := bfsOrder_perm [t]
    rw [allNodesL_singleton] at hp
    exact hp.map nodeSummary

theorem jsonDump_cap_and_per_node_witness :
    (Node.mk "program" true ⟨0, 0⟩ ⟨0, 2⟩ [Node.mk "number" true ⟨0, 0⟩ ⟨0, 2⟩ []]).size ≤ 2000 ∧
    ((jsonDump "examples/fortytwo.js"
        (Node.mk "program" true ⟨0, 0⟩ ⟨0, 2⟩ [Node.mk "number" true ⟨0, 0⟩ ⟨0, 2⟩ []])).nodes).Perm
      ((Node.mk "program" true ⟨0, 0⟩ ⟨0, 2⟩
        [Node.mk "number" true ⟨0, 0⟩ ⟨0, 2⟩ []]).allNodes.map nodeSummary) :=
  ⟨by decide,
   (jsonDump_cap_and_per_node "examples/fortytwo.js"
      (Node.mk "program" true ⟨0, 0⟩ ⟨0, 2⟩ [Node.mk "number" true ⟨0, 0⟩ ⟨0, 2⟩ []])).2
     (by decide)⟩

/-- C2: In JSON mode the renderer performs a breadth-first traversal from the
root, emitting one NodeSummary per visited node; the output object carries
the given source file path, the root's NodeSummary, and the visited
summaries in breadth-first (level) order with the root first, truncated at
the cap of 2000. -/
theorem jsonDump_breadth_first_shape (f : String) (t : Node) :
    (jsonDump f t).file = f ∧
    (jsonDump f t).root = nodeSummary t ∧
    (jsonDump f t).nodes = ((bfsLevels [t]).map nodeSummary).take 2000 ∧
    (jsonDump f t).nodes.head? = some (nodeSummary t) := by
  refine ⟨rfl, rfl, ?_, ?_⟩
  · rw [jsonDump_nodes, bfsOrder_eq_bfsLevels, List.map_take]
  · rw [jsonDump_nodes]
    have hc : bfsOrder [t] = t :: bfsOrder ([] ++ t.children) := bfsOrder_cons t []
    have h2000 : (2000 : Nat) = 1999 + 1 := rfl
    rw [hc, h2000, List.take_succ_cons, List.map_cons]
    rfl

/-- C10: In JSON mode the root's NodeSummary appears twice in the output:
the root field equals the first element of the nodes array (the cap is at
least 1, and the root is enqueued and summarized first). -/
theorem jsonDump_root_appears_twice (f : String) (t : Node) :
    (jsonDump f t).nodes.head? = some ((jsonDump f t).root) ∧
    (jsonDump f t).root = nodeSummary t := by
  refine ⟨?_, rfl⟩
  rw [jsonDump_nodes]
  have hc : bfsOrder [t] = t :: bfsOrder ([] ++ t.children) := bfsOrder_cons t []
  have h2000 : (2000 : Nat) = 1999 + 1 := rfl
  rw [hc, h2000, List.take_succ_cons, List.map_cons]
  rfl

/-- C3: For every input whose source text is syntactically invalid for the
selected grammar (the parse tree merely contains ERROR nodes; the external
capability did not fatally fail), the tool still renders the tree normally
in both modes and exits with status zero — error nodes never cause a tool
failure. -/
theorem syntax_errors_still_render {G : Type} (w : World G) (p pkg : String) (g : G)
    (hp : p ≠ "--json")
    (hex : w.fileExists p = true)
    (hld : LANGUAGE_LOADERS (toLowerCase (extname p)) = some pkg)
    (hok : w.loadPackage pkg = Except.ok g)
    (_herr : (w.parse g (w.readFile p)).containsErrorNode = true) :
    (runParse w [p]).exitCode = 0 ∧
    (runParse w [p]).stdoutText = some (w.parse g (w.readFile p)).sexp ∧
    (runParse w [p, "--json"]).exitCode = 0 ∧
    (runParse w [p, "--json"]).stdoutJson = some (jsonDump p (w.parse g (w.readFile p))) := by
  simp [runParse, hp, Ne.symm hp, hex, hld, hok]

theorem syntax_errors_still_render_witness :
    (runParse errorWorld ["broken.js"]).exitCode = 0 ∧
    (runParse errorWorld ["broken.js"]).stdoutText
      = some (errorWorld.parse 0 (errorWorld.readFile "broken.js")).sexp ∧
    (runParse errorWorld ["broken.js", "--json"]).exitCode = 0 ∧
    (runParse errorWorld ["broken.js", "--json"]).stdoutJson
      = some (jsonDump "broken.js" (errorWorld.parse 0 (errorWorld.readFile "broken.js"))) :=
  syntax_errors_still_render errorWorld "broken.js" "tree-sitter-javascript" 0
    (by decide) (by decide) (by decide) rfl (by decide)

/-- C4: For every invocation on an existing file whose extension is not in
the registry, the process exits with status 2, distinguishable from the
file-not-found status 1, and prints a message naming the extension and
saying how to add support; the shell helper's dispatch behaves the same
way for its own registry. -/
theorem unsupported_extension_distinct_exit {G : Type} (w : World G) (p q : String)
    (fe : String → Bool) (t : String)
    (hp : p ≠ "--json") (hq : q ≠ "--json")
    (hex : w.fileExists p = true)
    (hun : LANGUAGE_LOADERS (toLowerCase (extname p)) = none)
    (hnf : w.fileExists q = false)
    (ht : t ≠ "") (hfe : fe t = true)
    (hsun : parseClonedRepo (shExt t) = none) :
    (runParse w [p]).exitCode = 2 ∧
    ("No language configured for extension: " ++ toLowerCase (extname p))
      ∈ (runParse w [p]).stderr ∧
    "Edit scripts/parse.js to add one." ∈ (runParse w [p]).stderr ∧
    (runParse w [q]).exitCode = 1 ∧
    (runParse w [p]).exitCode ≠ (runParse w [q]).exitCode ∧
    runParseClonedDispatch fe t = Except.error (2,
      ["Unsupported extension: ." ++ shExt t,
       "Edit scripts/parse-cloned.sh to add a repo mapping."]) := by
  simp [runParse, hp, Ne.symm hp, hq, Ne.symm hq, hex, hun, hnf, usageResult,
    runParseClonedDispatch, ht, hfe, hsun]

theorem unsupported_extension_distinct_exit_witness :
    (runParse failingWorld ["data.rs"]).exitCode = 2 ∧
    ("No language configured for extension: " ++ toLowerCase (extname "data.rs"))
      ∈ (runParse failingWorld ["data.rs"]).stderr ∧
    "Edit scripts/parse.js to add one." ∈ (runParse failingWorld ["data.rs"]).stderr ∧
    (runParse failingWorld ["missing.py"]).exitCode = 1 ∧
    (runParse failingWorld ["data.rs"]).exitCode
      ≠ (runParse failingWorld ["missing.py"]).exitCode ∧
    runParseClonedDispatch (fun _ => true) "notes.xyz" = Except.error (2,
      ["Unsupported extension: ." ++ shExt "notes.xyz",
       "Edit scripts/parse-cloned.sh to add a repo mapping."]) :=
  unsupported_extension_distinct_exit failingWorld "data.rs" "missing.py" (fun _ => true)
    "notes.xyz" (by decide) (by decide) (by decide) (by decide) (by decide) (by decide)
    (by decide) (by decide)

/-- C5: For every invocation with an unsupported extension, the dispatch
reports the unsupported-language error (exit 2) and the grammar-loading
step is never attempted: no loader-invocation event occurs. -/
theorem unsupported_extension_never_loads {G : Type} (w : World G) (p pkg : String)
    (hp : p ≠ "--json")
    (hex : w.fileExists p = true)
    (hun : LANGUAGE_LOADERS (toLowerCase (extname p)) = none) :
    (runParse w [p]).events = [] ∧
    Event.loaderInvoked pkg ∉ (runParse w [p]).events ∧
    (runParse w [p]).exitCode = 2 := by
  simp [runParse, hp, Ne.symm hp, hex, hun]

theorem unsupported_extension_never_loads_witness :
    (runParse failingWorld ["data.rs"]).events = [] ∧
    Event.loaderInvoked "tree-sitter-javascript" ∉ (runParse failingWorld ["data.rs"]).events ∧
    (runParse failingWorld ["data.rs"]).exitCode = 2 :=
  unsupported_extension_never_loads failingWorld "data.rs" "tree-sitter-javascript"
    (by decide) (by decide) (by decide)

/-- C6 counterexample: the registry of `scripts/parse.js` is not keyed by
dotless extensions — looking up the lowercased extension `js` without its
leading dot finds no mapping, while the dotted key `.js` is mapped to the
JavaScript grammar identifier. -/
theorem registry_dotless_lookup_fails :
    LANGUAGE_LOADERS "js" = none ∧
    LANGUAGE_LOADERS "js" ≠ some "tree-sitter-javascript" ∧
    LANGUAGE_LOADERS ".js" = some "tree-sitter-javascript" := by
  refine ⟨?_, ?_, ?_⟩ <;> decide

/-- C6 (amended): the Extension Registry is a pure, total, deterministic
function over a fixed table, keyed by the lowercased extension WITH its
leading dot (the form produced by `path.extname`): a lookup returns the
associated grammar identifier exactly for the keys of the fixed table, and
looking up the same extension twice always returns the same identifier. -/
theorem registry_fixed_table :
    (∀ (ext grammarId : String),
      LANGUAGE_LOADERS ext = some grammarId ↔ (ext, grammarId) ∈ registryTable) ∧
    (∀ (ext g₁ g₂ : String),
      LANGUAGE_LOADERS ext = some g₁ → LANGUAGE_LOADERS ext = some g₂ → g₁ = g₂) := by
  constructor
  · intro ext grammarId
    constructor
    · intro h
      unfold LANGUAGE_LOADERS at h
      split_ifs at h <;> simp_all [registryTable]
    · intro h
      simp only [registryTable, List.mem_cons, List.not_mem_nil, or_false, Prod.mk.injEq] at h
      rcases h with ⟨h1, h2⟩ | ⟨h1, h2⟩ | ⟨h1, h2⟩ | ⟨h1, h2⟩ | ⟨h1, h2⟩ | ⟨h1, h2⟩ <;>
        subst h1 <;> subst h2 <;> decide
  · intro ext g₁ g₂ h1 h2
    rw [h1] at h2
    exact Option.some.inj h2

theorem registry_fixed_table_witness :
    LANGUAGE_LOADERS ".py" = some "tree-sitter-python" ∧
    "tree-sitter-json" = "tree-sitter-json" :=
  ⟨(registry_fixed_table.1 ".py" "tree-sitter-python").mpr (by decide),
   registry_fixed_table.2 ".json" "tree-sitter-json" "tree-sitter-json" (by decide) (by decide)⟩

/-- C7: Loading the same grammar identifier a second time within one process
returns the cached handle without re-invoking the underlying expensive load
step: if a `require` of `key` succeeded with handle `g` and cache `cache'`,
a second `require` of `key` returns the same `g`, leaves the cache
unchanged, and reports that the expensive step did not run. -/
theorem requireMod_memoizes {G : Type} (load : String → Except String G)
    (cache cache' : List (String × G)) (key : String) (g : G) (b : Bool)
    (h : requireMod load cache key = (Except.ok g, cache', b)) :
    requireMod load cache' key = (Except.ok g, cache', false) := by
  unfold requireMod at h
  cases hc : cacheLookup cache key with
  | some g0 =>
    rw [hc] at h
    simp only [Prod.mk.injEq] at h
    obtain ⟨hg, hcc, -⟩ := h
    subst hcc
    have hg0 : g0 = g := Except.ok.inj hg
    subst hg0
    unfold requireMod
    rw [hc]
  | none =>
    rw [hc] at h
    cases hl : load key with
    | ok g0 =>
      rw [hl] at h
      simp only [Prod.mk.injEq] at h
      obtain ⟨hg, hcc, -⟩ := h
      have hg0 : g0 = g := Except.ok.inj hg
      subst hg0
      subst hcc
      unfold requireMod
      simp [cacheLookup]
    | error e =>
      rw [hl] at h
      simp at h

theorem requireMod_memoizes_witness :
    requireMod (fun _ => (Except.ok 7 : Except String Nat)) [] "tree-sitter-javascript"
      = (Except.ok 7, [("tree-sitter-javascript", 7)], true) ∧
    requireMod (fun _ => (Except.ok 7 : Except String Nat))
        [("tree-sitter-javascript", 7)] "tree-sitter-javascript"
      = (Except.ok 7, [("tree-sitter-javascript", 7)], false) :=
  ⟨rfl,
   requireMod_memoizes (fun _ => (Except.ok 7 : Except String Nat)) []
     [("tree-sitter-javascript", 7)] "tree-sitter-javascript" 7 true rfl⟩

/-- C8: For every invocation whose extension is registered but whose grammar
package fails to load, the tool reports a message that includes the
underlying loader error text, exits with status 2 (non-zero, and also
distinct from the not-found status 1), and produces a structured result
rather than an unstructured crash. -/
theorem grammar_load_failure_reported {G : Type} (w : World G) (p pkg e : String)
    (hp : p ≠ "--json")
    (hex : w.fileExists p = true)
    (hld : LANGUAGE_LOADERS (toLowerCase (extname p)) = some pkg)
    (hfail : w.loadPackage pkg = Except.error e) :
    (runParse w [p]).exitCode = 2 ∧
    (runParse w [p]).exitCode ≠ 0 ∧
    (runParse w [p]).exitCode ≠ 1 ∧
    e ∈ (runParse w [p]).stderr ∧
    ("Failed to load parser package for " ++ toLowerCase (extname p) ++ ". Did you install it?")
      ∈ (runParse w [p]).stderr := by
  simp [runParse, hp, Ne.symm hp, hex, hld, hfail]

theorem grammar_load_failure_reported_witness :
    (runParse failingWorld ["script.py"]).exitCode = 2 ∧
    (runParse failingWorld ["script.py"]).exitCode ≠ 0 ∧
    (runParse failingWorld ["script.py"]).exitCode ≠ 1 ∧
    "Cannot find module tree-sitter-python" ∈ (runParse failingWorld ["script.py"]).stderr ∧
    ("Failed to load parser package for " ++ toLowerCase (extname "script.py")
      ++ ". Did you install it?") ∈ (runParse failingWorld ["script.py"]).stderr :=
  grammar_load_failure_reported failingWorld "script.py" "tree-sitter-python"
    "Cannot find module tree-sitter-python" (by decide) (by decide) (by decide) rfl

/-- C9: Extension dispatch at the CLI is case-insensitive: the extension is
lowercased before registry lookup, so any two paths whose extensions agree
up to character case select the same grammar loader; in particular `.JS`
and `.js` both select the JavaScript grammar package. -/
theorem dispatch_case_insensitive :
    (∀ (p q : String), toLowerCase (extname p) = toLowerCase (extname q) →
      selectLoader p = selectLoader q) ∧
    selectLoader "app.JS" = selectLoader "app.js" ∧
    selectLoader "app.JS" = some "tree-sitter-javascript" := by
  refine ⟨?_, ?_, ?_⟩
  · intro p q h
    unfold selectLoader
    rw [h]
  · decide
  · decide

theorem dispatch_case_insensitive_witness :
    selectLoader "m.TSX" = selectLoader "m.tsx" :=
  dispatch_case_insensitive.1 "m.TSX" "m.tsx" (by decide)
